import Mathlib

/-!
Shallow embedding of the Go parser-combinator library `parsercombinator`
(files `type.go`, `parser.go`, the combinator file with `Trace`/`Seq`/`Or`/
`Repeat`/`Optional`/`Recover`/`Label`/`Trans`, the error file with
`ParseError` and the four sentinel errors, and `easy.go` with `Find`/`Split`).

Modelling conventions:
  * Go `int` is modelled as `Int`.
  * A Go nil pointer (`*Pos`) or nil error is an `Option` `none`.
  * A Go parser `func(*ParseContext[T], []Token[T]) (int, []Token[T], error)`
    mutates the context through the pointer, so it is modelled in
    state-passing style, returning the updated context together with the
    triple.  The outer `Option` models non-termination of the Go code
    (`none` = the Go loop diverges); loops that Go bounds only by runtime
    conditions are translated with an explicit fuel counter.
  * Go slice expressions `src[i:]`, `src[:i]` are `List.drop` / `List.take`.
    Where Go would panic (index out of range, nil dereference) the spot is
    marked with a comment; those states are unreachable in honest runs.
-/

namespace ParserCombinator

/-- `Pos` from type.go: Line, Col, Index, Length (all Go `int`). -/
structure Pos where
  line : Int
  col : Int
  index : Int
  length : Int
deriving DecidableEq, Repr

/-- `(p *Pos) String()` from type.go; the receiver may be nil, hence
`Option Pos`.  Nil renders as the stable placeholder "1:1"; a position with
both line and column zero renders the raw index; otherwise "line:col". -/
def posString : Option Pos → String
  | none => "1:1"
  | some p =>
    if p.line = 0 ∧ p.col = 0 then toString p.index
    else toString p.line ++ ":" ++ toString p.col

/-- `Token[T]` from type.go. -/
structure Token (T : Type) where
  type : String
  pos : Option Pos
  raw : String
  val : T
deriving DecidableEq

/-- `TraceType` from type.go (constructor `Match` is renamed `matched`
because `match` is a Lean keyword). -/
inductive TraceType where
  | enter
  | matched
  | enterMatch
  | notMatch
  | enterNotMatch
deriving DecidableEq

/-- `TraceInfo` from type.go. -/
structure TraceInfo where
  traceType : TraceType
  depth : Int
  name : String
  pos : Option Pos
  result : String
deriving DecidableEq

/-- `OrMode` from type.go: Safe (longest match, default), Fast (first match),
TryFast (first match plus divergence warning). -/
inductive OrMode where
  | safe
  | fast
  | tryFast
deriving DecidableEq

/-- The four sentinel errors of the error file: `ErrNotMatch`,
`ErrRepeatCount`, `ErrCritical`, `ErrStackOverflow`. -/
inductive BaseErr where
  | notMatch
  | repeatCount
  | critical
  | stackOverflow
deriving DecidableEq, BEq

mutual
/-- The Go error values the library constructs, as a (mutual) tree:
`sentinel b msg` is `fmt.Errorf("%w ...", ErrB)` — a wrap of sentinel `b`
whose full rendered message is `msg`; `parseErr`/`parseErrNil` are
`&ParseError{Parent: e, Pos: pos}` with non-nil / nil parent; `joined` is a
non-empty `errors.Join`; `plainMsg` is an unwrapped `fmt.Errorf`/
`errors.New` message.  `GoErrList` is a plain list, kept mutual so that
recursion over the tree is structural. -/
inductive GoError where
  | sentinel : BaseErr → String → GoError
  | parseErr : GoError → Option Pos → GoError
  | parseErrNil : Option Pos → GoError
  | joined : GoErrList → GoError
  | plainMsg : String → GoError
inductive GoErrList where
  | nil : GoErrList
  | cons : GoError → GoErrList → GoErrList
end

mutual
/-- `errors.Is(err, sentinel)` for a non-nil `err`: unwraps through
`ParseError.Unwrap` (the parent), the `%w` wrap, and every member of an
`errors.Join`. -/
def isErrB : GoError → BaseErr → Bool
  | .sentinel b _, t => b == t
  | .parseErr parent _, t => isErrB parent t
  | .parseErrNil _, _ => false
  | .joined es, t => isErrListB es t
  | .plainMsg _, _ => false
def isErrListB : GoErrList → BaseErr → Bool
  | .nil, _ => false
  | .cons e es, t => isErrB e t || isErrListB es t
end

/-- `errors.Is(err, sentinel)` including the nil-error case
(`errors.Is(nil, target)` is false). -/
def isErrOpt : Option GoError → BaseErr → Bool
  | none, _ => false
  | some e, b => isErrB e b

mutual
/-- `(e ParseError) Error()` and the messages of the other error forms.
A `ParseError` with nil parent would dereference nil in Go (unreachable in
honest runs); it is rendered as "" here.  `errors.Join` renders its members
separated by newlines. -/
def errMessage : GoError → String
  | .sentinel _ msg => msg
  | .parseErr parent pos =>
    match pos with
    | some p => errMessage parent ++ " at " ++ posString (some p)
    | none => errMessage parent
  | .parseErrNil _ => ""
  | .joined es => errListMessage es
  | .plainMsg msg => msg
def errListMessage : GoErrList → String
  | .nil => ""
  | .cons e .nil => errMessage e
  | .cons e es => errMessage e ++ "\n" ++ errListMessage es
end

/-- Conversion from a Lean list of errors to the mutual list type. -/
def toGoErrList : List GoError → GoErrList
  | [] => .nil
  | e :: es => .cons e (toGoErrList es)

/-- `errors.Join(errs...)`: nil when the slice is empty, otherwise one
joined error holding every member. -/
def joinGo (es : List GoError) : Option GoError :=
  match es with
  | [] => none
  | _ => some (.joined (toGoErrList es))

/-- `&ParseError{Parent: parent, Pos: pos}` where the parent may be nil. -/
def mkParseErr (parent : Option GoError) (pos : Option Pos) : GoError :=
  match parent with
  | none => .parseErrNil pos
  | some e => .parseErr e pos

/-- `NewErrNotMatch(expected, actual, pos)` from the error file. -/
def NewErrNotMatch (expected actual : String) (pos : Option Pos) : GoError :=
  let msg :=
    if actual ≠ "" then "not match expected: " ++ expected ++ ", actual: " ++ actual
    else "not match expected: " ++ expected ++ ", but not"
  .parseErr (.sentinel .notMatch msg) pos

/-- `NewErrRepeatCount(label, expected, actual, pos)`; note the Go code does
not use the label in the message. -/
def NewErrRepeatCount (_label : String) (expected actual : Int) (pos : Option Pos) : GoError :=
  .parseErr
    (.sentinel .repeatCount
      ("repeat count expected count: " ++ toString expected ++ ", actual count: " ++ toString actual))
    pos

/-- `NewErrCritical(message, pos)`. -/
def NewErrCritical (message : String) (pos : Option Pos) : GoError :=
  .parseErr (.sentinel .critical ("critical error: " ++ message)) pos

/-- `NewErrStackOverflow(currentDepth, maxDepth, pos)`. -/
def NewErrStackOverflow (currentDepth maxDepth : Int) (pos : Option Pos) : GoError :=
  .parseErr
    (.sentinel .stackOverflow
      ("stack overflow: recursion depth " ++ toString currentDepth ++
        " exceeded maximum " ++ toString maxDepth))
    pos

/-- `ParseContext[T]` from type.go (the current revision, which carries
`MaxDepth`, `OrMode` and — per the spec's configuration surface §7 —
`CheckTransformSafety`).  The `Errors` field is the append-only error log of
`*ParseError` values. -/
structure ParseContext (T : Type) where
  tokens : List (Token T) := []
  pos : Int := 0
  remainedTokens : List (Token T) := []
  results : List (Token T) := []
  traces : List TraceInfo := []
  errors : List GoError := []
  depth : Int := 0
  traceEnable : Bool := false
  maxDepth : Int := 0
  orMode : OrMode := .safe
  checkTransformSafety : Bool := false

/-- `NewParseContext[T]()`: default maximum depth 1000, Safe or-mode. -/
def NewParseContext (T : Type) : ParseContext T :=
  { maxDepth := 1000, orMode := .safe }

/-- `(pc *ParseContext[T]) AppendError(err, pos)`: a non-ParseError is
wrapped first; returns the updated context and the stored error. -/
def AppendError (pc : ParseContext T) (err : GoError) (pos : Option Pos) :
    ParseContext T × GoError :=
  match err with
  | .parseErr parent q => ({ pc with errors := pc.errors ++ [.parseErr parent q] }, .parseErr parent q)
  | .parseErrNil q => ({ pc with errors := pc.errors ++ [.parseErrNil q] }, .parseErrNil q)
  | e =>
    let pe := .parseErr e pos
    ({ pc with errors := pc.errors ++ [pe] }, pe)

/-- `(pc *ParseContext[T]) CheckDepthAndIncrement(pos)`: if a positive
maximum depth is configured and the live counter has reached it, fail with
`StackOverflow` (no mutation); otherwise increment the counter. -/
def CheckDepthAndIncrement (pc : ParseContext T) (pos : Option Pos) :
    ParseContext T × Option GoError :=
  if pc.maxDepth > 0 ∧ pc.depth ≥ pc.maxDepth then
    (pc, some (NewErrStackOverflow pc.depth pc.maxDepth pos))
  else
    ({ pc with depth := pc.depth + 1 }, none)

/-- `(pc *ParseContext[T]) DecrementDepth()`. -/
def DecrementDepth (pc : ParseContext T) : ParseContext T :=
  if pc.depth > 0 then { pc with depth := pc.depth - 1 } else pc

/-- The `(consumed int, newTokens []Token[T], err error)` result triple of a
parser invocation. -/
structure RunResult (T : Type) where
  consumed : Int
  toks : List (Token T)
  err : Option GoError

/-- `Parser[T]` from parser.go, in state-passing style; the outer `Option`
is `none` when the Go code would not terminate. -/
abbrev Parser (T : Type) :=
  ParseContext T → List (Token T) → Option (ParseContext T × RunResult T)

/-- `Transformer[T]`: receives the context pointer and the produced tokens,
returns replacement tokens and an error. -/
abbrev Transformer (T : Type) :=
  ParseContext T → List (Token T) → ParseContext T × (List (Token T) × Option GoError)

/-- Result triple of a parser run, context dropped. -/
def resOf (x : Option (ParseContext T × RunResult T)) : Option (RunResult T) :=
  x.map Prod.snd

/-- Final context of a parser run, result dropped. -/
def ctxOf (x : Option (ParseContext T × RunResult T)) : Option (ParseContext T) :=
  x.map Prod.fst

/-- Lift of a pure, context-independent total function to a `Parser`; used
to quantify claims over well-behaved parsers. -/
def liftF (f : List (Token T) → RunResult T) : Parser T :=
  fun pctx toks => some (pctx, f toks)

/-- `getFirstPos(src)` from the combinator file. -/
def getFirstPos (src : List (Token T)) : Option Pos :=
  match src with
  | t :: _ => t.pos
  | [] => none

/-- Stand-in for Go's `%#v` rendering of token values, used only to build
the `Result` strings of trace records. -/
class GoRepr (T : Type) where
  gostring : T → String

/-- The trace-record appended on entry by `Trace` when tracing is enabled
(`TraceType: Enter`, `Depth: pctx.Depth - 1` — the context has already been
incremented at this point). -/
def enterTraceCtx (pctx1 : ParseContext T) (name : String) (pos : Option Pos) : ParseContext T :=
  if pctx1.traceEnable then
    { pctx1 with traces := pctx1.traces ++ [⟨.enter, pctx1.depth - 1, name, pos, ""⟩] }
  else pctx1

/-- In-place update of the last trace record (Go mutates
`pctx.Traces[len(pctx.Traces)-1]`).  The empty case would be an
out-of-range panic in Go; unreachable in honest runs. -/
def modifyLastTrace (ts : List TraceInfo) (tt : TraceType) (result : String) : List TraceInfo :=
  match ts with
  | [] => []
  | [last] => [{ last with traceType := tt, result := result }]
  | x :: xs => x :: modifyLastTrace xs tt result

/-- The trace-record bookkeeping `Trace` performs after the wrapped parser
returns, when tracing is enabled: if the parser appended no trace of its
own (`len(pctx.Traces) == traceIndex`), the entry record is upgraded to
`EnterMatch`/`EnterNotMatch` in place; otherwise a fresh `Match`/`NotMatch`
record is appended.  `Depth - 1` is used because the counter has not been
decremented yet. -/
def exitTraceCtx [GoRepr T] (pctx3 : ParseContext T) (name : String) (pos : Option Pos)
    (traceIndex : Nat) (res : RunResult T) : ParseContext T :=
  if pctx3.traceEnable then
    let result :=
      match res.err with
      | some e => errMessage e
      | none =>
        "[" ++ String.intercalate ", " (res.toks.map (fun t => GoRepr.gostring t.val)) ++ "]"
    if pctx3.traces.length = traceIndex then
      { pctx3 with
          traces :=
            modifyLastTrace pctx3.traces
              (match res.err with
               | some _ => TraceType.enterNotMatch
               | none => TraceType.enterMatch)
              result }
    else
      { pctx3 with
          traces :=
            pctx3.traces ++
              [⟨(match res.err with
                 | some _ => TraceType.notMatch
                 | none => TraceType.matched), pctx3.depth - 1, name, pos, result⟩] }
  else pctx3

/-- `Trace(name, p)` from the combinator file (current revision): check the
depth guard (fail with `StackOverflow` before invoking `p` if it trips),
record an entry trace, run `p`, record the outcome trace, and — via the
deferred `DecrementDepth` — restore the depth counter on every exit path. -/
def Trace [GoRepr T] (name : String) (p : Parser T) : Parser T :=
  fun pctx tokens =>
    let pos := getFirstPos tokens
    match CheckDepthAndIncrement pctx pos with
    | (pctx1, some e) => some (pctx1, ⟨0, [], some e⟩)
    | (pctx1, none) =>
      let pctx2 := enterTraceCtx pctx1 name pos
      let traceIndex := pctx2.traces.length
      match p pctx2 tokens with
      | none => none
      | some (pctx3, res) =>
        some (DecrementDepth (exitTraceCtx pctx3 name pos traceIndex res), res)

/-- The loop body of `SeqWithLabel` (current revision): each element parser
is invoked even when the accumulated offset has reached or passed the end
of the input — it then receives an empty slice instead of `Seq` failing
with an end-of-tokens error. -/
def seqLoop (src : List (Token T)) :
    List (Parser T) → List (Token T) → Int → ParseContext T →
      Option (ParseContext T × RunResult T)
  | [], converted, offset, pctx => some (pctx, ⟨offset, converted, none⟩)
  | p :: ps, converted, offset, pctx =>
    let currentSrc := if offset < (src.length : Int) then src.drop offset.toNat else []
    match p pctx currentSrc with
    | none => none
    | some (pctx', r) =>
      match r.err with
      | some e => some (pctx', ⟨0, src, some e⟩)
      | none => seqLoop src ps (converted ++ r.toks) (offset + r.consumed) pctx'

/-- `SeqWithLabel(label, parsers...)` (current revision). -/
def SeqWithLabel [GoRepr T] (label : String) (parsers : List (Parser T)) : Parser T :=
  Trace label (fun pctx src => seqLoop src parsers [] 0 pctx)

/-- `Seq(parsers...)`. -/
def Seq [GoRepr T] (parsers : List (Parser T)) : Parser T :=
  SeqWithLabel "seq" parsers

/-- The `bestResult` accumulator of `orSafe`. -/
structure BestResult (T : Type) where
  consumed : Int := 0
  newTokens : List (Token T) := []
  hasResult : Bool := false

/-- The loop of `orSafe`: every alternative is evaluated on the same `src`;
a matching alternative replaces the best result only when it consumed
strictly more; recoverable failures (`ErrNotMatch`/`ErrRepeatCount`) are
collected; any other failure is returned at once.  After the loop the best
match is returned, or all collected errors are joined into one
`ParseError` at the input's first position. -/
def orSafeLoop (src : List (Token T)) :
    List (Parser T) → ParseContext T → BestResult T → List GoError →
      Option (ParseContext T × RunResult T)
  | [], pctx, best, allError =>
    if best.hasResult then some (pctx, ⟨best.consumed, best.newTokens, none⟩)
    else some (pctx, ⟨0, [], some (mkParseErr (joinGo allError) (getFirstPos src))⟩)
  | p :: ps, pctx, best, allError =>
    match p pctx src with
    | none => none
    | some (pctx', r) =>
      match r.err with
      | none =>
        let best' :=
          if best.hasResult = false ∨ r.consumed > best.consumed then
            ⟨r.consumed, r.toks, true⟩
          else best
        orSafeLoop src ps pctx' best' allError
      | some e =>
        if isErrB e .notMatch || isErrB e .repeatCount then
          orSafeLoop src ps pctx' best (allError ++ [e])
        else some (pctx', ⟨r.consumed, [], some e⟩)

/-- `orSafe(pctx, src, parsers, allError)` — longest-match alternation. -/
def orSafe (pctx : ParseContext T) (src : List (Token T)) (parsers : List (Parser T))
    (allError : List GoError) : Option (ParseContext T × RunResult T) :=
  orSafeLoop src parsers pctx {} allError

/-- The loop of `orFast`: first match returns immediately. -/
def orFastLoop (src : List (Token T)) :
    List (Parser T) → ParseContext T → List GoError →
      Option (ParseContext T × RunResult T)
  | [], pctx, allError =>
    some (pctx, ⟨0, [], some (mkParseErr (joinGo allError) (getFirstPos src))⟩)
  | p :: ps, pctx, allError =>
    match p pctx src with
    | none => none
    | some (pctx', r) =>
      match r.err with
      | none => some (pctx', r)
      | some e =>
        if isErrB e .notMatch || isErrB e .repeatCount then
          orFastLoop src ps pctx' (allError ++ [e])
        else some (pctx', ⟨r.consumed, [], some e⟩)

/-- `orFast(pctx, src, parsers, allError)` — first-match alternation. -/
def orFast (pctx : ParseContext T) (src : List (Token T)) (parsers : List (Parser T))
    (allError : List GoError) : Option (ParseContext T × RunResult T) :=
  orFastLoop src parsers pctx allError

/-- The `firstMatch`/`bestMatch` accumulators of `orTryFast`. -/
structure MatchRec (T : Type) where
  consumed : Int := 0
  newTokens : List (Token T) := []
  hasResult : Bool := false
  index : Int := 0

/-- The loop of `orTryFast`: evaluates every alternative (to know what Safe
mode would pick), remembers the first and the longest match, and returns
the first match; the optimization-suggestion diagnostic goes to stderr only
and has no effect on the returned values, so it is not modelled. -/
def orTryFastLoop (src : List (Token T)) :
    List (Parser T) → Int → ParseContext T → MatchRec T → MatchRec T → List GoError →
      Option (ParseContext T × RunResult T)
  | [], _, pctx, firstMatch, _, allError =>
    if firstMatch.hasResult then
      some (pctx, ⟨firstMatch.consumed, firstMatch.newTokens, none⟩)
    else some (pctx, ⟨0, [], some (mkParseErr (joinGo allError) (getFirstPos src))⟩)
  | p :: ps, i, pctx, firstMatch, bestMatch, allError =>
    match p pctx src with
    | none => none
    | some (pctx', r) =>
      match r.err with
      | none =>
        let firstMatch' :=
          if firstMatch.hasResult = false then ⟨r.consumed, r.toks, true, i⟩ else firstMatch
        let bestMatch' :=
          if bestMatch.hasResult = false ∨ r.consumed > bestMatch.consumed then
            ⟨r.consumed, r.toks, true, i⟩
          else bestMatch
        orTryFastLoop src ps (i + 1) pctx' firstMatch' bestMatch' allError
      | some e =>
        if isErrB e .notMatch || isErrB e .repeatCount then
          orTryFastLoop src ps (i + 1) pctx' firstMatch bestMatch (allError ++ [e])
        else some (pctx', ⟨r.consumed, [], some e⟩)

/-- `orTryFast(pctx, src, parsers, allError)`. -/
def orTryFast (pctx : ParseContext T) (src : List (Token T)) (parsers : List (Parser T))
    (allError : List GoError) : Option (ParseContext T × RunResult T) :=
  orTryFastLoop src parsers 0 pctx {} {} allError

/-- `Or(parsers...)`: dispatches on the context's `OrMode`
(default `OrModeSafe`). -/
def Or [GoRepr T] (parsers : List (Parser T)) : Parser T :=
  Trace "or" (fun pctx src =>
    match pctx.orMode with
    | .fast => orFast pctx src parsers []
    | .tryFast => orTryFast pctx src parsers []
    | .safe => orSafe pctx src parsers [])

/-- `checkTransformSafety(pc, parser, originalTokens, transformedTokens)`:
heuristically re-invokes the parser on the transformed tokens in a scratch
context; returns a warning error when that re-invocation succeeds,
consumes everything, and reproduces the transformed tokens exactly
(`reflect.DeepEqual`).  The Go function receives but never uses
`originalTokens`.  Result is `some (warning?)`; `none` when the
re-invocation diverges. -/
def checkTransformSafetyGo [DecidableEq T] (pc : ParseContext T) (parser : Parser T)
    (originalTokens transformedTokens : List (Token T)) : Option (Option GoError) :=
  let _ := originalTokens
  if transformedTokens.length = 0 then some none
  else
    let testPC : ParseContext T :=
      { maxDepth := pc.maxDepth, orMode := pc.orMode, checkTransformSafety := false }
    match parser testPC transformedTokens with
    | none => none
    | some (_, r) =>
      match r.err with
      | some _ => some none
      | none =>
        if r.consumed ≠ (transformedTokens.length : Int) then some none
        else if transformedTokens = r.toks then
          some (some (.plainMsg
            "potential infinite loop in transformation - parser produces same result when applied to transformed tokens"))
        else some none

/-- `Trans(parser, tf)` (current revision): run the parser; on its error
return `(0, src, err)` with the input slice unchanged; otherwise apply the
transformer; on its error likewise return `(0, src, err)`; on success run
the transformation-safety heuristic (Safe mode + toggle only — it logs a
warning to stderr and never alters the result) and return the parser's
consumed count with the transformer's replacement tokens. -/
def Trans [DecidableEq T] (parser : Parser T) (tf : Transformer T) : Parser T :=
  fun pc src =>
    match parser pc src with
    | none => none
    | some (pc1, r) =>
      match r.err with
      | some e => some (pc1, ⟨0, src, some e⟩)
      | none =>
        match tf pc1 r.toks with
        | (pc2, (_result, some e)) => some (pc2, ⟨0, src, some e⟩)
        | (pc2, (result, none)) =>
          if pc2.orMode = .safe ∧ pc2.checkTransformSafety = true then
            match checkTransformSafetyGo pc2 parser r.toks result with
            | none => none
            | some _ => some (pc2, ⟨r.consumed, result, none⟩)
          else some (pc2, ⟨r.consumed, result, none⟩)

/-- One outcome of the `Repeat` loop: either the loop left normally
(`broke`, carrying the iteration count, offset and accumulated tokens) or
an inner non-`NotMatch` error was returned at once (`early`). -/
inductive RepeatExit (T : Type) where
  | broke (i offset : Int) (converted : List (Token T))
  | early (e : GoError)

/-- The `for` loop of `Repeat`: while `i < max || max == -1`, stop when the
input is exhausted; run the inner parser on the remaining tokens; stop
(without error) on `ErrNotMatch`; return any other error immediately;
otherwise accumulate and continue.  The fuel counter models the fact that
the Go loop need not terminate (an inner parser that keeps matching while
consuming nothing loops forever); `none` = out of fuel. -/
def repeatLoop (parser : Parser T) (max : Int) (tokens : List (Token T)) :
    Nat → Int → Int → List (Token T) → ParseContext T →
      Option (ParseContext T × RepeatExit T)
  | 0, _, _, _, _ => none
  | fuel + 1, i, offset, converted, pctx =>
    if i < max ∨ max = -1 then
      if offset ≥ (tokens.length : Int) then some (pctx, .broke i offset converted)
      else
        match parser pctx (tokens.drop offset.toNat) with
        | none => none
        | some (pctx', r) =>
          if isErrOpt r.err .notMatch then some (pctx', .broke i offset converted)
          else
            match r.err with
            | some e => some (pctx', .early e)
            | none =>
              repeatLoop parser max tokens fuel (i + 1) (offset + r.consumed)
                (converted ++ r.toks) pctx'
    else some (pctx, .broke i offset converted)

/-- `Repeat(label, min, max, parser)`: after the loop, fewer than `min`
successful iterations fail with `RepeatCount` at the original starting
position (`0, tokens, err`); otherwise the accumulated tokens are returned.
`fuel` bounds the possibly-unbounded Go loop. -/
def Repeat [GoRepr T] (fuel : Nat) (label : String) (min : Nat) (max : Int)
    (parser : Parser T) : Parser T :=
  Trace label (fun pctx tokens =>
    match repeatLoop parser max tokens fuel 0 0 [] pctx with
    | none => none
    | some (pctx', .early e) => some (pctx', ⟨0, [], some e⟩)
    | some (pctx', .broke i offset converted) =>
      if i < (min : Int) then
        some (pctx', ⟨0, tokens, some (NewErrRepeatCount label (min : Int) i (getFirstPos tokens))⟩)
      else some (pctx', ⟨offset, converted, none⟩))

/-- `OneOrMore(label, parser)` = `Repeat(label, 1, -1, parser)`. -/
def OneOrMore [GoRepr T] (fuel : Nat) (label : String) (parser : Parser T) : Parser T :=
  Repeat fuel label 1 (-1) parser

/-- `ZeroOrMore(label, parser)` = `Repeat(label, 0, -1, parser)`. -/
def ZeroOrMore [GoRepr T] (fuel : Nat) (label : String) (parser : Parser T) : Parser T :=
  Repeat fuel label 0 (-1) parser

/-- `Optional(parser)`: success passes through; `ErrNotMatch`/
`ErrRepeatCount` become success with zero consumption and no tokens; any
other error (critical, stack overflow) propagates as `(0, [], err)`. -/
def Optional [GoRepr T] (parser : Parser T) : Parser T :=
  Trace "optional" (fun pctx tokens =>
    match parser pctx tokens with
    | none => none
    | some (pctx', r) =>
      match r.err with
      | none => some (pctx', r)
      | some e =>
        if isErrB e .notMatch || isErrB e .repeatCount then some (pctx', ⟨0, [], none⟩)
        else some (pctx', ⟨0, [], some e⟩))

/-- The healing scan of `Recover` (`for i := range src`): try `skipUntil`
at each successive position; on the first success consume through the end
of that match (`i + consumed`) with no produced tokens; if it never
matches, consume the whole remaining input.  Iteration is bounded by the
countdown `n` (the caller passes `src.length`, matching the Go range
loop). -/
def healLoop (skipUntil : Parser T) (src : List (Token T)) :
    Nat → Nat → ParseContext T → Option (ParseContext T × RunResult T)
  | 0, _, pc => some (pc, ⟨(src.length : Int), [], none⟩)
  | n + 1, i, pc =>
    if i < src.length then
      match skipUntil pc (src.drop i) with
      | none => none
      | some (pc', r) =>
        match r.err with
        | none => some (pc', ⟨(i : Int) + r.consumed, [], none⟩)
        | some _ => healLoop skipUntil src n (i + 1) pc'
    else some (pc, ⟨(src.length : Int), [], none⟩)

/-- The healing closure of `Recover`: starts the scan
`for i := range src` at index 0 (named here so the proofs can refer to
it). -/
def healingBody (skipUntil : Parser T) : Parser T :=
  fun pc src => healLoop skipUntil src src.length 0 pc

/-- The closure `Recover` passes to `Trace "recover"` (named here for the
proofs). -/
def recoverBody [GoRepr T] (search body skipUntil : Parser T) : Parser T :=
  fun pc src =>
    match Trace "precondition-check" search pc src with
    | none => none
    | some (pc1, r1) =>
      match r1.err with
      | some e => some (pc1, ⟨0, [], some e⟩)
      | none =>
        match Trace "process" body pc1 src with
        | none => none
        | some (pc2, r2) =>
          match r2.err with
          | none => some (pc2, r2)
          | some e =>
            match src with
            | [] => none
            | t :: _ =>
              let pc3 := (AppendError pc2 e t.pos).1
              Trace "healing" (healingBody skipUntil) pc3 src

/-- `Recover(search, body, skipUntil)`: `search` is a non-consuming
precondition whose failure is returned at once; `body` success passes
through; on `body` failure the error is appended to the context's error
log (`src[0].Pos` — a nil-pointer panic in Go when `src` is empty,
modelled as `none`) and the healing scan runs. -/
def Recover [GoRepr T] (search body skipUntil : Parser T) : Parser T :=
  Trace "recover" (recoverBody search body skipUntil)

/-- `Label(label, parser)`: success passes through unchanged; any failure
is replaced by `NewErrNotMatch(label, "not matched", pos)` with the
consumed count preserved and the produced tokens dropped.  Not
Trace-wrapped. -/
def Label (label : String) (parser : Parser T) : Parser T :=
  fun pc src =>
    match parser pc src with
    | none => none
    | some (pc', r) =>
      match r.err with
      | some _ => some (pc', ⟨r.consumed, [], some (NewErrNotMatch label "not matched" (getFirstPos src))⟩)
      | none => some (pc', r)

/-- `Fail(message)`: always fails with `NewErrCritical`. -/
def Fail (message : String) : Parser T :=
  fun pc src =>
    some (pc, ⟨0, [], some (NewErrCritical message (getFirstPos src))⟩)

/-- Result of `Find`: Go returns `(skipped, match, consume, remained,
found)`; `notFound` is the `(nil, nil, 0, nil, false)` case. -/
inductive FindResult (T : Type) where
  | found (skipped matched : List (Token T)) (consume : Int) (remained : List (Token T))
  | notFound

/-- The loop of `Find` (`for i := 0; i < len(tokens); i++`): try the parser
at each index; the first success yields `tokens[:i]`, the match, its
consumed count and `tokens[i+consume:]`.  The countdown `n` (the caller
passes `tokens.length`) bounds the loop exactly as the Go index bound
does. -/
def findLoop (parser : Parser T) (tokens : List (Token T)) :
    Nat → Nat → ParseContext T → Option (ParseContext T × FindResult T)
  | 0, _, ctx => some (ctx, .notFound)
  | n + 1, i, ctx =>
    if i < tokens.length then
      match parser ctx (tokens.drop i) with
      | none => none
      | some (ctx', r) =>
        match r.err with
        | none => some (ctx', .found (tokens.take i) r.toks r.consumed (tokens.drop (i + r.consumed.toNat)))
        | some _ => findLoop parser tokens n (i + 1) ctx'
    else some (ctx, .notFound)

/-- `Find(ctx, parser, tokens)` from easy.go. -/
def Find (ctx : ParseContext T) (parser : Parser T) (tokens : List (Token T)) :
    Option (ParseContext T × FindResult T) :=
  findLoop parser tokens tokens.length 0 ctx

/-- `Consume[T]` from easy.go (field `Match` is renamed `matched` because
`match` is a Lean keyword). -/
structure Consume (T : Type) where
  skipped : List (Token T) := []
  matched : List (Token T) := []
  consume : Int := 0
  last : Bool := false
deriving DecidableEq

/-- The loop of `Split` (`for len(rest) > 0`), carrying the
`foundLastSeparator` flag: a found separator emits a non-last segment and
continues on the remainder; no separator emits the remaining tokens as the
last segment; an empty remainder emits the extra empty last segment
exactly when the previous round ended on a separator.  The fuel models the
fact that the Go loop need not terminate (a separator that matches while
consuming nothing makes no progress). -/
def splitLoop (sep : Parser T) :
    Nat → ParseContext T → List (Token T) → Bool →
      Option (ParseContext T × List (Consume T))
  | 0, _, _, _ => none
  | fuel + 1, ctx, rest, foundLastSeparator =>
    if rest.length = 0 then
      some (ctx, if foundLastSeparator then [{ last := true }] else [])
    else
      match Find ctx sep rest with
      | none => none
      | some (ctx', .notFound) => some (ctx', [{ skipped := rest, last := true }])
      | some (ctx', .found before m consume after) =>
        match splitLoop sep fuel ctx' after true with
        | none => none
        | some (ctx2, segs) =>
          some (ctx2, { skipped := before, matched := m, consume := consume } :: segs)

/-- `Split(ctx, sep, tokens)` from easy.go; `fuel` bounds the
possibly-unbounded Go loop. -/
def Split (fuel : Nat) (ctx : ParseContext T) (sep : Parser T) (tokens : List (Token T)) :
    Option (ParseContext T × List (Consume T)) :=
  splitLoop sep fuel ctx tokens false

/-! Concrete instances used by the claim witnesses and counterexamples. -/

/-- Stand-in `%#v` rendering for string-valued tokens. -/
instance : GoRepr String := ⟨fun s => "s:" ++ s⟩

/-- Stand-in `%#v` rendering for unit-valued tokens. -/
instance : GoRepr Unit := ⟨fun _ => "unit"⟩

/-- The position `EvaluateWithRawTokens` attaches to the i-th raw token:
`&Pos{Index: i}`. -/
def strPos (i : Nat) : Pos := ⟨0, 0, (i : Int), 0⟩

/-- The token `EvaluateWithRawTokens` builds from the i-th raw string. -/
def strTok (i : Nat) (s : String) : Token String := ⟨"raw", some (strPos i), s, ""⟩

/-- A context with no depth limit and Safe or-mode (all fields at their Go
zero values; Safe is the zero `OrMode`). -/
def ctx0 : ParseContext String := {}

/-- A pure parser function matching with two tokens consumed. -/
def f1c : List (Token String) → RunResult String := fun _ => ⟨2, [], none⟩

/-- A pure parser function matching with three tokens consumed. -/
def f2c : List (Token String) → RunResult String := fun _ => ⟨3, [], none⟩

/-- A pure parser function matching with nothing consumed (a zero-matching
parser such as a successful `Optional`). -/
def zeroMatch : List (Token String) → RunResult String := fun _ => ⟨0, [], none⟩

/-- A pure parser function that always fails critically. -/
def critFail : List (Token String) → RunResult String :=
  fun _ => ⟨0, [], some (NewErrCritical "boom" none)⟩

/-- The pure function of a user-level separator parser recognizing a ","
token (consumes one token and produces it). -/
def commaF : List (Token String) → RunResult String := fun toks =>
  match toks with
  | t :: _ =>
    if t.raw = "," then ⟨1, [t], none⟩
    else ⟨0, [], some (NewErrNotMatch "," t.raw t.pos)⟩
  | [] => ⟨0, [], some (NewErrNotMatch "," "end of tokens" none)⟩

/-- The separator parser built from `commaF`. -/
def commaP : Parser String := liftF commaF

/-- Tokens ",", ",", "x": a parser matching "," succeeds exactly twice here
and then reports `NotMatch`. -/
def toksCC : List (Token String) := [strTok 0 ",", strTok 1 ",", strTok 2 "x"]

/-- The token form of "a,b,c," (six raw tokens). -/
def toksTrailing : List (Token String) :=
  [strTok 0 "a", strTok 1 ",", strTok 2 "b", strTok 3 ",", strTok 4 "c", strTok 5 ","]

/-- The token form of "a,b,c" (five raw tokens). -/
def toksNoTrailing : List (Token String) :=
  [strTok 0 "a", strTok 1 ",", strTok 2 "b", strTok 3 ",", strTok 4 "c"]

/-- A context probe parser: succeeds reporting the live depth counter as
its consumed count, so a theorem can observe the depth at which `Trace`
invokes the wrapped parser. -/
def depthProbe : Parser T := fun c _ => some (c, ⟨c.depth, [], none⟩)

/-- A context sitting exactly at its configured maximum depth. -/
def ctxAtLimit : ParseContext String := { maxDepth := 2, depth := 2 }

/-- Lift of a pure, context-independent transformer. -/
def tfLift (g : List (Token T) → List (Token T) × Option GoError) : Transformer T :=
  fun pc src => (pc, g src)

/-! Helper lemmas: the trace bookkeeping touches only the `traces` and
`depth` fields, so every configuration field of the context survives a
`Trace` wrapper unchanged. -/

@[simp] theorem enterTraceCtx_orMode (c : ParseContext T) (n : String) (p : Option Pos) :
    (enterTraceCtx c n p).orMode = c.orMode := by
  unfold enterTraceCtx; split <;> rfl

@[simp] theorem enterTraceCtx_maxDepth (c : ParseContext T) (n : String) (p : Option Pos) :
    (enterTraceCtx c n p).maxDepth = c.maxDepth := by
  unfold enterTraceCtx; split <;> rfl

@[simp] theorem enterTraceCtx_depth (c : ParseContext T) (n : String) (p : Option Pos) :
    (enterTraceCtx c n p).depth = c.depth := by
  unfold enterTraceCtx; split <;> rfl

@[simp] theorem enterTraceCtx_errors (c : ParseContext T) (n : String) (p : Option Pos) :
    (enterTraceCtx c n p).errors = c.errors := by
  unfold enterTraceCtx; split <;> rfl

@[simp] theorem enterTraceCtx_checkTS (c : ParseContext T) (n : String) (p : Option Pos) :
    (enterTraceCtx c n p).checkTransformSafety = c.checkTransformSafety := by
  unfold enterTraceCtx; split <;> rfl

@[simp] theorem exitTraceCtx_orMode [GoRepr T] (c : ParseContext T) (n : String)
    (p : Option Pos) (ti : Nat) (r : RunResult T) :
    (exitTraceCtx c n p ti r).orMode = c.orMode := by
  unfold exitTraceCtx; split <;> (try split) <;> (try split) <;> rfl

@[simp] theorem exitTraceCtx_maxDepth [GoRepr T] (c : ParseContext T) (n : String)
    (p : Option Pos) (ti : Nat) (r : RunResult T) :
    (exitTraceCtx c n p ti r).maxDepth = c.maxDepth := by
  unfold exitTraceCtx; split <;> (try split) <;> (try split) <;> rfl

@[simp] theorem exitTraceCtx_depth [GoRepr T] (c : ParseContext T) (n : String)
    (p : Option Pos) (ti : Nat) (r : RunResult T) :
    (exitTraceCtx c n p ti r).depth = c.depth := by
  unfold exitTraceCtx; split <;> (try split) <;> (try split) <;> rfl

@[simp] theorem exitTraceCtx_errors [GoRepr T] (c : ParseContext T) (n : String)
    (p : Option Pos) (ti : Nat) (r : RunResult T) :
    (exitTraceCtx c n p ti r).errors = c.errors := by
  unfold exitTraceCtx; split <;> (try split) <;> (try split) <;> rfl

@[simp] theorem decrementDepth_orMode (c : ParseContext T) :
    (DecrementDepth c).orMode = c.orMode := by
  unfold DecrementDepth; split <;> rfl

@[simp] theorem decrementDepth_maxDepth (c : ParseContext T) :
    (DecrementDepth c).maxDepth = c.maxDepth := by
  unfold DecrementDepth; split <;> rfl

@[simp] theorem decrementDepth_errors (c : ParseContext T) :
    (DecrementDepth c).errors = c.errors := by
  unfold DecrementDepth; split <;> rfl

@[simp] theorem resOf_none : resOf (T := T) none = none := rfl

@[simp] theorem resOf_some (c : ParseContext T) (r : RunResult T) :
    resOf (some (c, r)) = some r := rfl

@[simp] theorem ctxOf_none : ctxOf (T := T) none = none := rfl

@[simp] theorem ctxOf_some (c : ParseContext T) (r : RunResult T) :
    ctxOf (some (c, r)) = some c := rfl

@[simp] theorem liftF_apply (f : List (Token T) → RunResult T) (pctx : ParseContext T)
    (toks : List (Token T)) : liftF f pctx toks = some (pctx, f toks) := rfl

/-- Unfolding of `Trace` when the depth guard does not trip. -/
theorem trace_noLimit [GoRepr T] (name : String) (p : Parser T) (pctx : ParseContext T)
    (tokens : List (Token T)) (hmax : ¬(pctx.maxDepth > 0 ∧ pctx.depth ≥ pctx.maxDepth)) :
    Trace name p pctx tokens =
      (match p (enterTraceCtx { pctx with depth := pctx.depth + 1 } name (getFirstPos tokens)) tokens with
       | none => none
       | some (pctx3, res) =>
         some (DecrementDepth
           (exitTraceCtx pctx3 name (getFirstPos tokens)
             (enterTraceCtx { pctx with depth := pctx.depth + 1 } name (getFirstPos tokens)).traces.length res), res)) := by
  unfold Trace CheckDepthAndIncrement
  simp [hmax]

/-- Unfolding of `Trace` when the depth guard trips: the stack-overflow
error is returned at once, the context untouched, the wrapped parser never
invoked. -/
theorem trace_overflow [GoRepr T] (name : String) (p : Parser T) (pctx : ParseContext T)
    (tokens : List (Token T)) (hmax : pctx.maxDepth > 0 ∧ pctx.depth ≥ pctx.maxDepth) :
    Trace name p pctx tokens =
      some (pctx, ⟨0, [], some (NewErrStackOverflow pctx.depth pctx.maxDepth (getFirstPos tokens))⟩) := by
  unfold Trace CheckDepthAndIncrement
  simp [hmax]

/-- A configured `maxDepth` of 0 (the "no limit" setting) never trips the
guard. -/
theorem noLimit_of_maxDepth_zero (pctx : ParseContext T) (hmax : pctx.maxDepth = 0) :
    ¬(pctx.maxDepth > 0 ∧ pctx.depth ≥ pctx.maxDepth) := by
  rw [hmax]; intro h; exact absurd h.1 (by norm_num)

/-- C9: Position formatting is total and deterministic: a nil position
renders as the stable placeholder "1:1"; a position whose line and column
are both zero (unknown) renders the raw numeric index as a decimal string;
a position carrying line/column information renders "line:col".  It never
fails. -/
theorem posString_total (op : Option Pos) :
    (op = none → posString op = "1:1") ∧
    (∀ p : Pos, op = some p → p.line = 0 → p.col = 0 → posString op = toString p.index) ∧
    (∀ p : Pos, op = some p → ¬(p.line = 0 ∧ p.col = 0) →
      posString op = toString p.line ++ ":" ++ toString p.col) := by
  refine ⟨fun h => by rw [h]; rfl, ?_, ?_⟩
  · intro p hp h1 h2
    rw [hp]
    simp [posString, h1, h2]
  · intro p hp h
    rw [hp]
    simp [posString, h]

/-- Witness for C9 at concrete positions. -/
theorem posString_total_witness :
    posString none = "1:1" ∧
    posString (some ⟨0, 0, 7, 0⟩) = "7" ∧
    posString (some ⟨3, 4, 7, 0⟩) = "3:4" := by
  refine ⟨(posString_total none).1 rfl, ?_, ?_⟩
  · exact (posString_total (some ⟨0, 0, 7, 0⟩)).2.1 ⟨0, 0, 7, 0⟩ rfl rfl rfl
  · exact (posString_total (some ⟨3, 4, 7, 0⟩)).2.2 ⟨3, 4, 7, 0⟩ rfl (by norm_num)

/-- C2: when `Seq`'s accumulated offset reaches or passes the end of the
input, the next element parser is still invoked — against an empty
remaining slice — and `Seq`'s outcome is whatever that invocation
dictates, rather than an automatic end-of-tokens failure; consequently a
sequence of zero-matching element parsers succeeds on empty input. -/
theorem seq_empty_slice_at_eoi [GoRepr T] (label : String) (p : Parser T)
    (ps : List (Parser T)) (src conv : List (Token T)) (offset : Int)
    (pctx : ParseContext T) :
    ((src.length : Int) ≤ offset →
      seqLoop src (p :: ps) conv offset pctx =
        (match p pctx [] with
         | none => none
         | some (pctx', r) =>
           match r.err with
           | some e => some (pctx', ⟨0, src, some e⟩)
           | none => seqLoop src ps (conv ++ r.toks) (offset + r.consumed) pctx')) ∧
    (∀ f g : List (Token T) → RunResult T,
      pctx.maxDepth = 0 →
      (f []).err = none → (f []).consumed = 0 →
      (g []).err = none → (g []).consumed = 0 →
      resOf (SeqWithLabel label [liftF f, liftF g] pctx []) =
        some ⟨0, (f []).toks ++ (g []).toks, none⟩) := by
  constructor
  · intro h
    rw [seqLoop]
    rw [if_neg (by omega)]
  · intro f g hmax hf hfc hg hgc
    rw [SeqWithLabel, trace_noLimit _ _ _ _ (noLimit_of_maxDepth_zero pctx hmax)]
    have e1 : seqLoop ([] : List (Token T)) [liftF f, liftF g] [] 0
        (enterTraceCtx { pctx with depth := pctx.depth + 1 } label
          (getFirstPos ([] : List (Token T)))) =
        some (enterTraceCtx { pctx with depth := pctx.depth + 1 } label
            (getFirstPos ([] : List (Token T))),
          ⟨0, (f []).toks ++ (g []).toks, none⟩) := by
      rw [seqLoop]
      rw [if_neg (by norm_num)]
      rw [liftF_apply]
      simp only []
      rw [hf]
      rw [seqLoop]
      rw [if_neg (by rw [hfc]; norm_num)]
      rw [liftF_apply]
      simp only []
      rw [hg]
      rw [seqLoop]
      rw [hfc, hgc]
      norm_num
    rw [e1]
    rfl

/-- Witness for C2: a pair of zero-matching parsers inside `Seq` succeeds
on empty input, and the loop-level equation holds past the end of input. -/
theorem seq_empty_slice_at_eoi_witness :
    ((([strTok 0 "x"] : List (Token String)).length : Int) ≤ 5) ∧
    ctx0.maxDepth = 0 ∧
    resOf (SeqWithLabel "s" [liftF zeroMatch, liftF zeroMatch] ctx0 []) =
      some ⟨0, [], none⟩ := by
  refine ⟨by norm_num, rfl, ?_⟩
  exact (seq_empty_slice_at_eoi "s" (liftF zeroMatch) [] [strTok 0 "x"] [] 5 ctx0).2
    zeroMatch zeroMatch rfl rfl rfl rfl rfl

/-- The result triple of a `Trace`-wrapped parser is the body's result
triple whenever the depth guard does not trip. -/
theorem resOf_trace_body [GoRepr T] (name : String) (b : Parser T) (pctx : ParseContext T)
    (tokens : List (Token T)) (hmax : ¬(pctx.maxDepth > 0 ∧ pctx.depth ≥ pctx.maxDepth)) :
    resOf (Trace name b pctx tokens) =
      resOf (b (enterTraceCtx { pctx with depth := pctx.depth + 1 } name (getFirstPos tokens)) tokens) := by
  rw [trace_noLimit name b pctx tokens hmax]
  cases h : b (enterTraceCtx { pctx with depth := pctx.depth + 1 } name (getFirstPos tokens)) tokens with
  | none => rfl
  | some pr => cases pr with | mk c r => rfl

/-- With `OrMode = Safe` and no depth limit, `Or` evaluates to the
`orSafe` loop. -/
theorem or_eval_safe [GoRepr T] (parsers : List (Parser T)) (pctx : ParseContext T)
    (src : List (Token T)) (hmode : pctx.orMode = .safe) (hmax : pctx.maxDepth = 0) :
    resOf (Or parsers pctx src) =
      resOf (orSafeLoop src parsers
        (enterTraceCtx { pctx with depth := pctx.depth + 1 } "or" (getFirstPos src)) {} []) := by
  rw [Or, resOf_trace_body _ _ _ _ (noLimit_of_maxDepth_zero pctx hmax)]
  have hm : (enterTraceCtx { pctx with depth := pctx.depth + 1 } "or" (getFirstPos src)).orMode
      = OrMode.safe := by
    rw [enterTraceCtx_orMode]; exact hmode
  simp only [hm]
  rfl

/-- C1: `Or` with `OrMode = Safe` (the default): among alternatives that
match, the one that consumed the most tokens wins, independent of listing
order; at equal consumed length the first-listed matching alternative
wins; if no alternative matches, the recoverable errors are joined into
one `ParseError` at the input's starting position; a non-recoverable
failure (critical / stack overflow) of an alternative is returned at once
without trying later alternatives. -/
theorem orSafe_longest_match [GoRepr T] (f1 f2 : List (Token T) → RunResult T)
    (src : List (Token T)) (pctx : ParseContext T)
    (hmode : pctx.orMode = .safe) (hmax : pctx.maxDepth = 0) :
    ((f1 src).err = none → (f2 src).err = none →
      (((f2 src).consumed ≤ (f1 src).consumed →
        resOf (Or [liftF f1, liftF f2] pctx src) =
          some ⟨(f1 src).consumed, (f1 src).toks, none⟩) ∧
       ((f1 src).consumed < (f2 src).consumed →
        resOf (Or [liftF f1, liftF f2] pctx src) =
          some ⟨(f2 src).consumed, (f2 src).toks, none⟩) ∧
       ((f1 src).consumed ≠ (f2 src).consumed →
        resOf (Or [liftF f1, liftF f2] pctx src) =
          resOf (Or [liftF f2, liftF f1] pctx src)))) ∧
    (∀ e1 e2, (f1 src).err = some e1 → (f2 src).err = some e2 →
      (isErrB e1 .notMatch || isErrB e1 .repeatCount) = true →
      (isErrB e2 .notMatch || isErrB e2 .repeatCount) = true →
      resOf (Or [liftF f1, liftF f2] pctx src) =
        some ⟨0, [], some (mkParseErr (joinGo [e1, e2]) (getFirstPos src))⟩) ∧
    (∀ e1, (f1 src).err = some e1 →
      (isErrB e1 .notMatch || isErrB e1 .repeatCount) = false →
      ∀ q : Parser T,
        resOf (Or [liftF f1, q] pctx src) = some ⟨(f1 src).consumed, [], some e1⟩) := by
  have evalA : ∀ g1 g2 : List (Token T) → RunResult T,
      (g1 src).err = none → (g2 src).err = none →
      resOf (Or [liftF g1, liftF g2] pctx src) =
        (if (g1 src).consumed < (g2 src).consumed then
          some ⟨(g2 src).consumed, (g2 src).toks, none⟩
        else some ⟨(g1 src).consumed, (g1 src).toks, none⟩) := by
    intro g1 g2 hg1 hg2
    rw [or_eval_safe _ _ _ hmode hmax]
    simp only [orSafeLoop, liftF_apply, hg1, hg2]
    by_cases hc : (g1 src).consumed < (g2 src).consumed
    · simp [hc]
    · simp [hc]
  refine ⟨?_, ?_, ?_⟩
  · intro h1 h2
    refine ⟨?_, ?_, ?_⟩
    · intro hle
      rw [evalA f1 f2 h1 h2, if_neg (not_lt.mpr hle)]
    · intro hlt
      rw [evalA f1 f2 h1 h2, if_pos hlt]
    · intro hne
      rcases lt_or_gt_of_ne hne with h | h
      · rw [evalA f1 f2 h1 h2, if_pos h, evalA f2 f1 h2 h1, if_neg (not_lt.mpr (le_of_lt h))]
      · rw [evalA f1 f2 h1 h2, if_neg (not_lt.mpr (le_of_lt h)),
          evalA f2 f1 h2 h1, if_pos h]
  · intro e1 e2 h1 h2 hr1 hr2
    rw [or_eval_safe _ _ _ hmode hmax]
    simp only [orSafeLoop, liftF_apply, h1, h2, hr1, hr2]
    simp
  · intro e1 h1 hr1 q
    rw [or_eval_safe _ _ _ hmode hmax]
    rw [orSafeLoop]
    rw [liftF_apply]
    simp only [h1, hr1]
    simp

/-- Witness for C1: with the two-token matcher listed first and the
three-token matcher second, Safe mode returns the three-token result. -/
theorem orSafe_longest_match_witness :
    ctx0.orMode = .safe ∧ ctx0.maxDepth = 0 ∧
    resOf (Or [liftF f1c, liftF f2c] ctx0 []) = some ⟨3, [], none⟩ := by
  refine ⟨rfl, rfl, ?_⟩
  have h := (orSafe_longest_match f1c f2c [] ctx0 rfl rfl).1 rfl rfl
  exact h.2.1 (by decide)

/-- `DecrementDepth` as an equation on the depth field. -/
theorem decrementDepth_depth (c : ParseContext T) :
    (DecrementDepth c).depth = if c.depth > 0 then c.depth - 1 else c.depth := by
  unfold DecrementDepth; split <;> rfl

/-- C3: every `Trace`-wrapped invocation first checks the depth guard — if
a positive `MaxDepth` is configured and the live counter has reached it,
the invocation fails immediately with a `StackOverflow` recording the
current depth, the maximum and the current position, without invoking the
wrapped parser; otherwise the counter is incremented before the wrapped
parser runs (observed by a probe parser that reports the depth it is
invoked at) and decremented on every exit path, so a depth-preserving
parser leaves the counter exactly where it was. -/
theorem trace_depth_guard [GoRepr T] (name : String) (p : Parser T) (pctx : ParseContext T)
    (tokens : List (Token T)) :
    (pctx.maxDepth > 0 → pctx.depth ≥ pctx.maxDepth →
      (Trace name p pctx tokens =
        some (pctx, ⟨0, [], some (NewErrStackOverflow pctx.depth pctx.maxDepth (getFirstPos tokens))⟩) ∧
       ∀ q : Parser T, Trace name p pctx tokens = Trace name q pctx tokens)) ∧
    (¬(pctx.maxDepth > 0 ∧ pctx.depth ≥ pctx.maxDepth) → 0 ≤ pctx.depth →
      (∀ c c' r, p c tokens = some (c', r) → c'.depth = c.depth) →
      ∀ c' r, Trace name p pctx tokens = some (c', r) → c'.depth = pctx.depth) ∧
    (¬(pctx.maxDepth > 0 ∧ pctx.depth ≥ pctx.maxDepth) →
      resOf (Trace name (depthProbe (T := T)) pctx tokens) = some ⟨pctx.depth + 1, [], none⟩) := by
  refine ⟨?_, ?_, ?_⟩
  · intro h1 h2
    refine ⟨trace_overflow name p pctx tokens ⟨h1, h2⟩, fun q => ?_⟩
    rw [trace_overflow name p pctx tokens ⟨h1, h2⟩, trace_overflow name q pctx tokens ⟨h1, h2⟩]
  · intro hnov hd hp c' r heq
    rw [trace_noLimit name p pctx tokens hnov] at heq
    cases h : p (enterTraceCtx { pctx with depth := pctx.depth + 1 } name (getFirstPos tokens)) tokens with
    | none => rw [h] at heq; cases heq
    | some pr =>
      obtain ⟨c3, res⟩ := pr
      rw [h] at heq
      simp only [Option.some.injEq, Prod.mk.injEq] at heq
      obtain ⟨hc, -⟩ := heq
      subst hc
      have hdep : c3.depth = pctx.depth + 1 := by
        rw [hp _ _ _ h, enterTraceCtx_depth]
      rw [decrementDepth_depth, exitTraceCtx_depth, hdep, if_pos (by omega)]
      omega
  · intro hnov
    rw [resOf_trace_body name _ pctx tokens hnov]
    simp [depthProbe]

/-- Witness for C3: a context at its limit overflows; a context under it
runs the probe at the incremented depth. -/
theorem trace_depth_guard_witness :
    ctxAtLimit.maxDepth > 0 ∧ ctxAtLimit.depth ≥ ctxAtLimit.maxDepth ∧
    Trace "w" (depthProbe (T := String)) ctxAtLimit [] =
      some (ctxAtLimit, ⟨0, [], some (NewErrStackOverflow 2 2 none)⟩) ∧
    resOf (Trace "w" (depthProbe (T := String)) ctx0 []) = some ⟨1, [], none⟩ := by
  refine ⟨by decide, by decide, ?_, ?_⟩
  · exact ((trace_depth_guard "w" depthProbe ctxAtLimit []).1 (by decide) (by decide)).1
  · exact (trace_depth_guard "w" depthProbe ctx0 []).2.2 (by decide)

/-- C5: `Optional(p)` runs `p` once; success passes through unchanged
(consumed count and produced tokens); a `NotMatch`/`RepeatCount` failure
becomes success with zero consumption and no produced tokens; any other
failure (critical / stack overflow) is returned unchanged. -/
theorem optional_error_policy [GoRepr T] (f : List (Token T) → RunResult T)
    (pctx : ParseContext T) (tokens : List (Token T)) (hmax : pctx.maxDepth = 0) :
    ((f tokens).err = none → resOf (Optional (liftF f) pctx tokens) = some (f tokens)) ∧
    (∀ e, (f tokens).err = some e →
      (isErrB e .notMatch || isErrB e .repeatCount) = true →
      resOf (Optional (liftF f) pctx tokens) = some ⟨0, [], none⟩) ∧
    (∀ e, (f tokens).err = some e →
      (isErrB e .notMatch || isErrB e .repeatCount) = false →
      resOf (Optional (liftF f) pctx tokens) = some ⟨0, [], some e⟩) := by
  have hnov := noLimit_of_maxDepth_zero pctx hmax
  refine ⟨?_, ?_, ?_⟩
  · intro h
    rw [Optional, resOf_trace_body _ _ _ _ hnov]
    simp only [liftF_apply, h]
    rfl
  · intro e h hr
    rw [Optional, resOf_trace_body _ _ _ _ hnov]
    simp only [liftF_apply, h, hr]
    simp
  · intro e h hr
    rw [Optional, resOf_trace_body _ _ _ _ hnov]
    simp only [liftF_apply, h, hr]
    simp

/-- Witness for C5: a matching parser passes through; a critical failure
propagates unchanged. -/
theorem optional_error_policy_witness :
    ctx0.maxDepth = 0 ∧
    resOf (Optional (liftF zeroMatch) ctx0 []) = some ⟨0, [], none⟩ ∧
    resOf (Optional (liftF critFail) ctx0 []) =
      some ⟨0, [], some (NewErrCritical "boom" none)⟩ := by
  refine ⟨rfl, ?_, ?_⟩
  · exact (optional_error_policy zeroMatch ctx0 [] rfl).1 rfl
  · exact (optional_error_policy critFail ctx0 [] rfl).2.2
      (NewErrCritical "boom" none) rfl (by decide)

/-- Pure two-match loop evaluation for `Repeat`: with an unbounded maximum,
a pure parser that matches twice and then stops (end of input or
`NotMatch`) drives the loop to exactly two iterations. -/
theorem repeatLoop_two_matches (f : List (Token T) → RunResult T) (tokens : List (Token T))
    (c1 c2 : Int) (t1 t2 : List (Token T)) (fuel : Nat) (c : ParseContext T)
    (h0 : 0 < tokens.length)
    (h1 : f tokens = ⟨c1, t1, none⟩)
    (hc1 : c1 < (tokens.length : Int))
    (h2 : f (tokens.drop c1.toNat) = ⟨c2, t2, none⟩)
    (h3 : (tokens.length : Int) ≤ c1 + c2 ∨
      isErrOpt (f (tokens.drop (c1 + c2).toNat)).err .notMatch = true) :
    repeatLoop (liftF f) (-1) tokens (fuel + 3) 0 0 [] c =
      some (c, .broke 2 (c1 + c2) (t1 ++ t2)) := by
  have e3 : fuel + 3 = (fuel + 2) + 1 := rfl
  rw [e3, repeatLoop, if_pos (Or.inr rfl),
    if_neg (by omega : ¬((0 : Int) ≥ (tokens.length : Int))), liftF_apply]
  simp only [Int.toNat_zero, List.drop_zero, h1, isErrOpt, Bool.false_eq_true, if_false,
    zero_add, List.nil_append]
  have e2 : fuel + 2 = (fuel + 1) + 1 := rfl
  rw [e2, repeatLoop, if_pos (Or.inr rfl),
    if_neg (by omega : ¬(c1 ≥ (tokens.length : Int))), liftF_apply]
  simp only [h2, isErrOpt, Bool.false_eq_true, if_false]
  by_cases hoff : c1 + c2 ≥ (tokens.length : Int)
  · rw [repeatLoop, if_pos (Or.inr rfl), if_pos hoff]
    norm_num
  · rcases h3 with h3 | h3
    · omega
    · rw [repeatLoop, if_pos (Or.inr rfl), if_neg hoff, liftF_apply]
      simp only []
      rw [if_pos h3]
      norm_num

/-- C4: the `Repeat` loop stops on `NotMatch` (not an error at the Repeat
level), when the configured maximum is reached (`max = -1` meaning
unbounded), or when input is exhausted; a non-`NotMatch` inner error is
returned immediately; after the loop, fewer than `min` successes fail with
`RepeatCount` at the original starting position.  In particular
`Repeat(label, 1, -1, p)` on empty input fails with `RepeatCount`, and a
parser matching exactly twice before stopping yields the two matches
without error. -/
theorem repeat_loop_policy [GoRepr T] (label : String) (parser : Parser T) (max : Int)
    (tokens : List (Token T)) (pctx : ParseContext T) :
    (∀ (fuel : Nat) (i offset : Int) (conv : List (Token T)) (c : ParseContext T),
      ¬(i < max ∨ max = -1) →
      repeatLoop parser max tokens (fuel + 1) i offset conv c = some (c, .broke i offset conv)) ∧
    (∀ (fuel : Nat) (i offset : Int) (conv : List (Token T)) (c : ParseContext T),
      (i < max ∨ max = -1) → (tokens.length : Int) ≤ offset →
      repeatLoop parser max tokens (fuel + 1) i offset conv c = some (c, .broke i offset conv)) ∧
    (∀ (fuel : Nat) (i offset : Int) (conv : List (Token T)) (c c' : ParseContext T)
        (r : RunResult T) (e : GoError),
      (i < max ∨ max = -1) → offset < (tokens.length : Int) →
      parser c (tokens.drop offset.toNat) = some (c', r) → r.err = some e →
      isErrB e .notMatch = true →
      repeatLoop parser max tokens (fuel + 1) i offset conv c = some (c', .broke i offset conv)) ∧
    (∀ (fuel : Nat) (i offset : Int) (conv : List (Token T)) (c c' : ParseContext T)
        (r : RunResult T) (e : GoError),
      (i < max ∨ max = -1) → offset < (tokens.length : Int) →
      parser c (tokens.drop offset.toNat) = some (c', r) → r.err = some e →
      isErrB e .notMatch = false →
      repeatLoop parser max tokens (fuel + 1) i offset conv c = some (c', .early e)) ∧
    (pctx.maxDepth = 0 → ∀ (fuel : Nat) (min : Nat), 0 < min →
      resOf (Repeat (fuel + 1) label min (-1) parser pctx []) =
        some ⟨0, [], some (NewErrRepeatCount label (min : Int) 0 none)⟩) ∧
    (pctx.maxDepth = 0 → ∀ (fuel : Nat) (min : Nat) (f : List (Token T) → RunResult T)
        (e : GoError),
      0 < tokens.length → (0 < max ∨ max = -1) →
      (f tokens).err = some e → isErrB e .notMatch = false →
      resOf (Repeat (fuel + 1) label min max (liftF f) pctx tokens) = some ⟨0, [], some e⟩) ∧
    (pctx.maxDepth = 0 → ∀ (fuel : Nat) (f : List (Token T) → RunResult T)
        (c1 c2 : Int) (t1 t2 : List (Token T)),
      0 < tokens.length →
      f tokens = ⟨c1, t1, none⟩ →
      c1 < (tokens.length : Int) →
      f (tokens.drop c1.toNat) = ⟨c2, t2, none⟩ →
      ((tokens.length : Int) ≤ c1 + c2 ∨
        isErrOpt (f (tokens.drop (c1 + c2).toNat)).err .notMatch = true) →
      resOf (Repeat (fuel + 3) label 1 (-1) (liftF f) pctx tokens) =
        some ⟨c1 + c2, t1 ++ t2, none⟩) := by
  refine ⟨?_, ?_, ?_, ?_, ?_, ?_, ?_⟩
  · intro fuel i offset conv c hstop
    rw [repeatLoop, if_neg hstop]
  · intro fuel i offset conv c hcond hoff
    rw [repeatLoop, if_pos hcond, if_pos hoff]
  · intro fuel i offset conv c c' r e hcond hoff hp hre hnm
    rw [repeatLoop, if_pos hcond, if_neg (by omega), hp]
    simp only [isErrOpt, hre]
    rw [if_pos hnm]
  · intro fuel i offset conv c c' r e hcond hoff hp hre hnm
    rw [repeatLoop, if_pos hcond, if_neg (by omega), hp]
    simp only [isErrOpt, hre, hnm, Bool.false_eq_true, if_false]
  · intro hmax fuel min hmin
    rw [Repeat, resOf_trace_body _ _ _ _ (noLimit_of_maxDepth_zero pctx hmax)]
    rw [repeatLoop, if_pos (Or.inr rfl),
      if_pos (by simp : (0 : Int) ≥ ((List.length ([] : List (Token T))) : Int))]
    simp only []
    rw [if_pos (by exact_mod_cast hmin : (0 : Int) < (min : Int))]
    rfl
  · intro hmax fuel min f e h0 hcond hfe hnm
    rw [Repeat, resOf_trace_body _ _ _ _ (noLimit_of_maxDepth_zero pctx hmax)]
    rw [repeatLoop, if_pos hcond, if_neg (by omega), liftF_apply]
    simp only [Int.toNat_zero, List.drop_zero, isErrOpt, hfe, hnm, Bool.false_eq_true, if_false]
    rfl
  · intro hmax fuel f c1 c2 t1 t2 h0 h1 hc1 h2 h3
    rw [Repeat, resOf_trace_body _ _ _ _ (noLimit_of_maxDepth_zero pctx hmax)]
    rw [repeatLoop_two_matches f tokens c1 c2 t1 t2 fuel _ h0 h1 hc1 h2 h3]
    simp only []
    rw [if_neg (by norm_num : ¬((2 : Int) < ((1 : Nat) : Int)))]
    rfl

/-- Witness for C4: `Repeat("r", 1, -1, commaP)` on empty input fails with
`RepeatCount`; on ",", ",", "x" it returns the two comma matches. -/
theorem repeat_loop_policy_witness :
    ctx0.maxDepth = 0 ∧ 0 < 1 ∧
    resOf (Repeat 1 "r" 1 (-1) commaP ctx0 []) =
      some ⟨0, [], some (NewErrRepeatCount "r" 1 0 none)⟩ ∧
    resOf (Repeat 3 "r" 1 (-1) (liftF commaF) ctx0 toksCC) =
      some ⟨2, [strTok 0 ",", strTok 1 ","], none⟩ := by
  refine ⟨rfl, by decide, ?_, ?_⟩
  · exact (repeat_loop_policy "r" commaP (-1) [] ctx0).2.2.2.2.1 rfl 0 1 (by decide)
  · exact (repeat_loop_policy "r" commaP (-1) toksCC ctx0).2.2.2.2.2.2 rfl 0 commaF
      1 1 [strTok 0 ","] [strTok 1 ","] (by decide) rfl (by decide) rfl
      (Or.inr (by decide))

/-- C7 counterexample: `Label` is not purely cosmetic.  Wrapping a
critically-failing alternative in `Label` converts its failure into a
recoverable `NotMatch`, so an enclosing Safe-mode `Or` selects the second
alternative, whereas without `Label` the same `Or` aborts with the
critical error: the two parses disagree. -/
theorem label_not_cosmetic_cex :
    resOf (Or [Label "lbl" (Fail "boom"), liftF f1c] ctx0 [strTok 0 "x"]) =
      some ⟨2, [], none⟩ ∧
    resOf (Or [Fail "boom", liftF f1c] ctx0 [strTok 0 "x"]) =
      some ⟨0, [], some (NewErrCritical "boom" (some (strPos 0)))⟩ ∧
    resOf (Or [Label "lbl" (Fail "boom"), liftF f1c] ctx0 [strTok 0 "x"]) ≠
      resOf (Or [Fail "boom", liftF f1c] ctx0 [strTok 0 "x"]) := by
  refine ⟨rfl, rfl, fun h => ?_⟩
  exact absurd (congrArg (fun x => (x.getD ⟨99, [], none⟩).consumed) h) (by decide)

/-- C7 (amended): `Label(name, p)` passes success through unchanged; any
failure of `p` — of any error kind — is replaced by a recoverable
`NotMatch` naming the label, with `p`'s consumed count preserved and the
produced tokens dropped.  The replacement is always classified as
`ErrNotMatch`, which is why converting a non-recoverable failure can
change what an enclosing `Or` or `Repeat` does. -/
theorem label_replaces_errors (label : String) (parser : Parser T) (pc : ParseContext T)
    (src : List (Token T)) :
    (∀ pc' r, parser pc src = some (pc', r) → r.err = none →
      Label label parser pc src = some (pc', r)) ∧
    (∀ pc' r e, parser pc src = some (pc', r) → r.err = some e →
      (Label label parser pc src =
        some (pc', ⟨r.consumed, [], some (NewErrNotMatch label "not matched" (getFirstPos src))⟩) ∧
       isErrB (NewErrNotMatch label "not matched" (getFirstPos src)) .notMatch = true)) := by
  constructor
  · intro pc' r hp hr
    unfold Label
    rw [hp]
    simp only [hr]
  · intro pc' r e hp hr
    refine ⟨?_, rfl⟩
    unfold Label
    rw [hp]
    simp only [hr]

/-- Witness for the amended C7: a critical failure is replaced by the
labelled `NotMatch`. -/
theorem label_replaces_errors_witness :
    Fail "boom" ctx0 [strTok 0 "x"] =
      some (ctx0, ⟨0, [], some (NewErrCritical "boom" (some (strPos 0)))⟩) ∧
    Label "lbl" (Fail "boom") ctx0 [strTok 0 "x"] =
      some (ctx0, ⟨0, [], some (NewErrNotMatch "lbl" "not matched" (some (strPos 0)))⟩) := by
  refine ⟨rfl, ?_⟩
  exact ((label_replaces_errors "lbl" (Fail "boom") ctx0 [strTok 0 "x"]).2 ctx0
    ⟨0, [], some (NewErrCritical "boom" (some (strPos 0)))⟩
    (NewErrCritical "boom" (some (strPos 0))) rfl rfl).1

/-- The transformation-safety heuristic applied to a total lifted parser
always yields a verdict (the heuristic itself cannot diverge then). -/
theorem checkTS_liftF_isSome [DecidableEq T] (pc : ParseContext T)
    (f : List (Token T) → RunResult T) (a b : List (Token T)) :
    (checkTransformSafetyGo pc (liftF f) a b).isSome = true := by
  unfold checkTransformSafetyGo
  split
  · rfl
  · simp only [liftF_apply]
    cases h : (f b).err with
    | some e => simp [h]
    | none =>
      simp only [h]
      split
      · rfl
      · split <;> rfl

/-- C10: `Trans(p, tf)` is atomic in its token input: `tf` runs only after
`p` succeeds; whenever `p` or `tf` returns an error, `Trans` returns a
consumed count of zero together with the original input slice unchanged
and that same error; on success it returns `p`'s consumed count with
`tf`'s replacement tokens. -/
theorem trans_atomic [DecidableEq T] (f : List (Token T) → RunResult T)
    (g : List (Token T) → List (Token T) × Option GoError)
    (pc : ParseContext T) (src : List (Token T)) :
    (∀ e, (f src).err = some e →
      Trans (liftF f) (tfLift g) pc src = some (pc, ⟨0, src, some e⟩)) ∧
    ((f src).err = none → ∀ e, (g (f src).toks).2 = some e →
      Trans (liftF f) (tfLift g) pc src = some (pc, ⟨0, src, some e⟩)) ∧
    ((f src).err = none → (g (f src).toks).2 = none →
      Trans (liftF f) (tfLift g) pc src =
        some (pc, ⟨(f src).consumed, (g (f src).toks).1, none⟩)) := by
  refine ⟨?_, ?_, ?_⟩
  · intro e he
    unfold Trans
    rw [liftF_apply]
    simp only [he]
  · intro hf e hge
    unfold Trans
    rw [liftF_apply]
    simp only [hf]
    rcases hg : g (f src).toks with ⟨res, gerr⟩
    rw [hg] at hge
    simp only at hge
    subst hge
    simp only [tfLift, hg]
  · intro hf hge
    unfold Trans
    rw [liftF_apply]
    simp only [hf]
    rcases hg : g (f src).toks with ⟨res, gerr⟩
    rw [hg] at hge
    simp only at hge
    subst hge
    simp only [tfLift, hg]
    by_cases hsafe : pc.orMode = OrMode.safe ∧ pc.checkTransformSafety = true
    · rw [if_pos hsafe]
      obtain ⟨w, hw⟩ := Option.isSome_iff_exists.mp (checkTS_liftF_isSome pc f (f src).toks res)
      rw [hw]
    · rw [if_neg hsafe]

/-- Witness for C10: a critical parser failure passes through with the
input unchanged; a successful parse returns the transformer's tokens. -/
theorem trans_atomic_witness :
    (critFail [strTok 0 "x"]).err = some (NewErrCritical "boom" none) ∧
    Trans (liftF critFail) (tfLift (fun t => (t, none))) ctx0 [strTok 0 "x"] =
      some (ctx0, ⟨0, [strTok 0 "x"], some (NewErrCritical "boom" none)⟩) ∧
    Trans (liftF f1c) (tfLift (fun _ => ([strTok 0 "y"], none))) ctx0 [strTok 0 "x"] =
      some (ctx0, ⟨2, [strTok 0 "y"], none⟩) := by
  refine ⟨rfl, ?_, ?_⟩
  · exact (trans_atomic critFail (fun t => (t, none)) ctx0 [strTok 0 "x"]).1
      (NewErrCritical "boom" none) rfl
  · exact (trans_atomic f1c (fun _ => ([strTok 0 "y"], none)) ctx0 [strTok 0 "x"]).2.2 rfl rfl

/-- `AppendError` preserves the maximum-depth configuration. -/
theorem appendError_maxDepth (pc : ParseContext T) (e : GoError) (pos : Option Pos) :
    (AppendError pc e pos).1.maxDepth = pc.maxDepth := by
  cases e <;> rfl

/-- `AppendError` appends exactly the stored error to the log. -/
theorem appendError_errors (pc : ParseContext T) (e : GoError) (pos : Option Pos) :
    (AppendError pc e pos).1.errors = pc.errors ++ [(AppendError pc e pos).2] := by
  cases e <;> rfl

/-- The error value `AppendError` stores does not depend on the context. -/
theorem appendError_snd_const (pc pc' : ParseContext T) (e : GoError) (pos : Option Pos) :
    (AppendError pc e pos).2 = (AppendError pc' e pos).2 := by
  cases e <;> rfl

/-- Full outcome of a `Trace` wrapper, given the body's outcome at the
entered context. -/
theorem trace_run_of_body [GoRepr T] (name : String) (b : Parser T) (pc : ParseContext T)
    (tokens : List (Token T)) (hm : ¬(pc.maxDepth > 0 ∧ pc.depth ≥ pc.maxDepth))
    (cF : ParseContext T) (rF : RunResult T)
    (hb : b (enterTraceCtx { pc with depth := pc.depth + 1 } name (getFirstPos tokens)) tokens
      = some (cF, rF)) :
    ∃ c', Trace name b pc tokens = some (c', rF) ∧ c'.errors = cF.errors ∧
      c'.maxDepth = cF.maxDepth ∧ c'.orMode = cF.orMode := by
  rw [trace_noLimit name b pc tokens hm, hb]
  exact ⟨_, rfl, by simp, by simp, by simp⟩

/-- Outcome of tracing a pure lifted parser: its result triple, in a
context agreeing with the original on errors, depth limit and or-mode. -/
theorem trace_liftF_run [GoRepr T] (name : String) (f : List (Token T) → RunResult T)
    (pc : ParseContext T) (tokens : List (Token T))
    (hm : ¬(pc.maxDepth > 0 ∧ pc.depth ≥ pc.maxDepth)) :
    ∃ c', Trace name (liftF f) pc tokens = some (c', f tokens) ∧ c'.errors = pc.errors ∧
      c'.maxDepth = pc.maxDepth ∧ c'.orMode = pc.orMode := by
  obtain ⟨c', h1, h2, h3, h4⟩ :=
    trace_run_of_body name (liftF f) pc tokens hm _ _
      (liftF_apply f (enterTraceCtx { pc with depth := pc.depth + 1 } name (getFirstPos tokens)) tokens)
  exact ⟨c', h1, by simpa using h2, by simpa using h3, by simpa using h4⟩

/-- The healing scan with a pure skip parser finds the first matching
position: it consumes through the end of that match with no produced
tokens. -/
theorem healLoop_first_match (fu : List (Token T) → RunResult T) (src : List (Token T)) :
    ∀ (n i j : Nat) (pc : ParseContext T),
      i ≤ j → j < src.length → j < i + n →
      (fu (src.drop j)).err = none →
      (∀ k, i ≤ k → k < j → (fu (src.drop k)).err ≠ none) →
      healLoop (liftF fu) src n i pc =
        some (pc, ⟨(j : Int) + (fu (src.drop j)).consumed, [], none⟩) := by
  intro n
  induction n with
  | zero => intro i j pc hij hjlen hn hmatch hbefore; omega
  | succ n ih =>
    intro i j pc hij hjlen hn hmatch hbefore
    rw [healLoop, if_pos (by omega : i < src.length), liftF_apply]
    by_cases hij' : i = j
    · subst hij'
      simp only [hmatch]
    · have hlt : i < j := lt_of_le_of_ne hij hij'
      cases h : (fu (src.drop i)).err with
      | none => exact absurd h (hbefore i le_rfl hlt)
      | some e =>
        simp only [h]
        exact ih (i + 1) j pc hlt hjlen (by omega) hmatch
          (fun k hk1 hk2 => hbefore k (by omega) hk2)

/-- The healing scan with a pure skip parser that never matches consumes
the whole remaining input. -/
theorem healLoop_no_match (fu : List (Token T) → RunResult T) (src : List (Token T)) :
    ∀ (n i : Nat) (pc : ParseContext T),
      (∀ k, i ≤ k → k < src.length → (fu (src.drop k)).err ≠ none) →
      healLoop (liftF fu) src n i pc = some (pc, ⟨(src.length : Int), [], none⟩) := by
  intro n
  induction n with
  | zero => intro i pc _; rw [healLoop]
  | succ n ih =>
    intro i pc hall
    rw [healLoop]
    by_cases hi : i < src.length
    · rw [if_pos hi, liftF_apply]
      cases h : (fu (src.drop i)).err with
      | none => exact absurd h (hall i le_rfl hi)
      | some e =>
        simp only [h]
        exact ih (i + 1) pc (fun k hk1 hk2 => hall k (by omega) hk2)
    · rw [if_neg hi]

/-- The healing scan with a pure skip parser always terminates with the
context unchanged. -/
theorem healLoop_liftF_total (fu : List (Token T) → RunResult T) (src : List (Token T)) :
    ∀ (n i : Nat) (pc : ParseContext T),
      ∃ r, healLoop (liftF fu) src n i pc = some (pc, r) := by
  intro n
  induction n with
  | zero => intro i pc; exact ⟨_, by rw [healLoop]⟩
  | succ n ih =>
    intro i pc
    rw [healLoop]
    by_cases hi : i < src.length
    · rw [if_pos hi, liftF_apply]
      cases h : (fu (src.drop i)).err with
      | none =>
        exact ⟨⟨(i : Int) + (fu (src.drop i)).consumed, [], none⟩, by simp only [h]⟩
      | some e => simpa only [h] using ih (i + 1) pc
    · exact ⟨_, by rw [if_neg hi]⟩

/-- A result triple with no error is its own eta-expansion. -/
theorem runResult_eta_none (r : RunResult T) (h : r.err = none) :
    r = ⟨r.consumed, r.toks, none⟩ := by
  cases r; simp_all

/-- C6: `Recover(search, body, skipUntil)` — a failing `search` is
returned at once (`body` never runs: the outcome does not depend on it); a
succeeding `body` passes through unchanged; a failing `body` has its error
appended to the context's error log instead of being returned, and the
healing scan reports success with no produced tokens, consuming through
the end of the first position where `skipUntil` matches, or the whole
remaining input if it never matches. -/
theorem recover_policy [GoRepr T] (fs fb fu : List (Token T) → RunResult T)
    (pctx : ParseContext T) (t : Token T) (rest : List (Token T)) (hmax : pctx.maxDepth = 0) :
    (∀ e, (fs (t :: rest)).err = some e →
      resOf (Recover (liftF fs) (liftF fb) (liftF fu) pctx (t :: rest)) =
        some ⟨0, [], some e⟩) ∧
    ((fs (t :: rest)).err = none → (fb (t :: rest)).err = none →
      resOf (Recover (liftF fs) (liftF fb) (liftF fu) pctx (t :: rest)) =
        some ⟨(fb (t :: rest)).consumed, (fb (t :: rest)).toks, none⟩) ∧
    (∀ e, (fs (t :: rest)).err = none → (fb (t :: rest)).err = some e →
      ((ctxOf (Recover (liftF fs) (liftF fb) (liftF fu) pctx (t :: rest))).map
          ParseContext.errors =
        some (pctx.errors ++ [(AppendError pctx e t.pos).2]) ∧
       (∀ j, j < (t :: rest).length → (fu ((t :: rest).drop j)).err = none →
          (∀ k, k < j → (fu ((t :: rest).drop k)).err ≠ none) →
          resOf (Recover (liftF fs) (liftF fb) (liftF fu) pctx (t :: rest)) =
            some ⟨(j : Int) + (fu ((t :: rest).drop j)).consumed, [], none⟩) ∧
       ((∀ k, k < (t :: rest).length → (fu ((t :: rest).drop k)).err ≠ none) →
          resOf (Recover (liftF fs) (liftF fb) (liftF fu) pctx (t :: rest)) =
            some ⟨((t :: rest).length : Int), [], none⟩))) := by
  have hnov := noLimit_of_maxDepth_zero pctx hmax
  set ec := enterTraceCtx { pctx with depth := pctx.depth + 1 } "recover"
    (getFirstPos (t :: rest)) with hec
  have hecm : ec.maxDepth = 0 := by rw [hec]; simp [hmax]
  obtain ⟨c1, h1, h1e, h1m, h1o⟩ :=
    trace_liftF_run "precondition-check" fs ec (t :: rest) (noLimit_of_maxDepth_zero ec hecm)
  refine ⟨?_, ?_, ?_⟩
  · intro e hs
    have hb1 : recoverBody (liftF fs) (liftF fb) (liftF fu) ec (t :: rest) =
        some (c1, ⟨0, [], some e⟩) := by
      unfold recoverBody
      rw [h1]
      simp only [hs]
    obtain ⟨cR, hR, -, -, -⟩ :=
      trace_run_of_body "recover" (recoverBody (liftF fs) (liftF fb) (liftF fu)) pctx
        (t :: rest) hnov c1 ⟨0, [], some e⟩ (hec ▸ hb1)
    rw [Recover, hR]
    rfl
  · intro hs hb'
    have hc1m : c1.maxDepth = 0 := by rw [h1m, hecm]
    obtain ⟨c2, h2, h2e, h2m, h2o⟩ :=
      trace_liftF_run "process" fb c1 (t :: rest) (noLimit_of_maxDepth_zero c1 hc1m)
    have hb1 : recoverBody (liftF fs) (liftF fb) (liftF fu) ec (t :: rest) =
        some (c2, fb (t :: rest)) := by
      unfold recoverBody
      rw [h1]
      simp only [hs]
      rw [h2]
      simp only [hb']
    obtain ⟨cR, hR, -, -, -⟩ :=
      trace_run_of_body "recover" (recoverBody (liftF fs) (liftF fb) (liftF fu)) pctx
        (t :: rest) hnov c2 (fb (t :: rest)) (hec ▸ hb1)
    rw [Recover, hR, runResult_eta_none (fb (t :: rest)) hb']
    rfl
  · intro e hs hb'
    have hc1m : c1.maxDepth = 0 := by rw [h1m, hecm]
    obtain ⟨c2, h2, h2e, h2m, h2o⟩ :=
      trace_liftF_run "process" fb c1 (t :: rest) (noLimit_of_maxDepth_zero c1 hc1m)
    have hb1 : recoverBody (liftF fs) (liftF fb) (liftF fu) ec (t :: rest) =
        Trace "healing" (healingBody (liftF fu)) ((AppendError c2 e t.pos).1) (t :: rest) := by
      unfold recoverBody
      rw [h1]
      simp only [hs]
      rw [h2]
      simp only [hb']
    have hpc3m : ((AppendError c2 e t.pos).1).maxDepth = 0 := by
      rw [appendError_maxDepth, h2m, hc1m]
    have hpc3nl := noLimit_of_maxDepth_zero _ hpc3m
    refine ⟨?_, ?_, ?_⟩
    · obtain ⟨rH, hH⟩ := healLoop_liftF_total fu (t :: rest) (t :: rest).length 0
        (enterTraceCtx
          { (AppendError c2 e t.pos).1 with depth := ((AppendError c2 e t.pos).1).depth + 1 }
          "healing" (getFirstPos (t :: rest)))
      obtain ⟨cH, hHt, hHe, -, -⟩ :=
        trace_run_of_body "healing" (healingBody (liftF fu)) ((AppendError c2 e t.pos).1)
          (t :: rest) hpc3nl _ rH hH
      obtain ⟨cR, hR, hRe, -, -⟩ :=
        trace_run_of_body "recover" (recoverBody (liftF fs) (liftF fb) (liftF fu)) pctx
          (t :: rest) hnov cH rH (hec ▸ (hb1.trans hHt))
      rw [Recover, hR]
      simp only [ctxOf_some, Option.map_some']
      rw [hRe, hHe]
      simp only [enterTraceCtx_errors]
      rw [appendError_errors, h2e, h1e, hec]
      simp only [enterTraceCtx_errors]
      rw [appendError_snd_const c2 pctx e t.pos]
    · intro j hj hjm hbefore
      have hsM := healLoop_first_match fu (t :: rest) (t :: rest).length 0 j
        (enterTraceCtx
          { (AppendError c2 e t.pos).1 with depth := ((AppendError c2 e t.pos).1).depth + 1 }
          "healing" (getFirstPos (t :: rest)))
        (Nat.zero_le j) hj (by omega) hjm (fun k _ hk2 => hbefore k hk2)
      obtain ⟨cH, hHt, -, -, -⟩ :=
        trace_run_of_body "healing" (healingBody (liftF fu)) ((AppendError c2 e t.pos).1)
          (t :: rest) hpc3nl _ _ hsM
      obtain ⟨cR, hR, -, -, -⟩ :=
        trace_run_of_body "recover" (recoverBody (liftF fs) (liftF fb) (liftF fu)) pctx
          (t :: rest) hnov cH _ (hec ▸ (hb1.trans hHt))
      rw [Recover, hR]
      rfl
    · intro hall
      have hsN := healLoop_no_match fu (t :: rest) (t :: rest).length 0
        (enterTraceCtx
          { (AppendError c2 e t.pos).1 with depth := ((AppendError c2 e t.pos).1).depth + 1 }
          "healing" (getFirstPos (t :: rest)))
        (fun k _ hk2 => hall k hk2)
      obtain ⟨cH, hHt, -, -, -⟩ :=
        trace_run_of_body "healing" (healingBody (liftF fu)) ((AppendError c2 e t.pos).1)
          (t :: rest) hpc3nl _ _ hsN
      obtain ⟨cR, hR, -, -, -⟩ :=
        trace_run_of_body "recover" (recoverBody (liftF fs) (liftF fb) (liftF fu)) pctx
          (t :: rest) hnov cH _ (hec ▸ (hb1.trans hHt))
      rw [Recover, hR]
      rfl

/-- Witness for C6: a failing body's error lands in the error log and the
healing scan consumes through the first separator match. -/
theorem recover_policy_witness :
    ctx0.maxDepth = 0 ∧
    (zeroMatch [strTok 0 "x", strTok 1 ","]).err = none ∧
    (critFail [strTok 0 "x", strTok 1 ","]).err = some (NewErrCritical "boom" none) ∧
    (ctxOf (Recover (liftF zeroMatch) (liftF critFail) (liftF commaF) ctx0
        [strTok 0 "x", strTok 1 ","])).map ParseContext.errors =
      some [NewErrCritical "boom" none] ∧
    resOf (Recover (liftF zeroMatch) (liftF critFail) (liftF commaF) ctx0
        [strTok 0 "x", strTok 1 ","]) = some ⟨2, [], none⟩ := by
  have h := (recover_policy zeroMatch critFail commaF ctx0 (strTok 0 "x")
    [strTok 1 ","] rfl).2.2 (NewErrCritical "boom" none) rfl rfl
  refine ⟨rfl, rfl, rfl, ?_, ?_⟩
  · exact h.1
  · refine h.2.1 1 (by decide) rfl ?_
    intro k hk
    have hk0 : k = 0 := by omega
    subst hk0
    intro hcontra
    exact Option.noConfusion hcontra

/-- C8: the `Split` trailing-separator law.  Generally, every outcome of
the split loop (entered with tokens remaining, or right after a separator
match) ends in exactly one segment flagged `Last` — the empty extra
segment when the input ended exactly on a separator match, the remaining
tokens otherwise — with all earlier segments unflagged.  Concretely,
splitting the token form of "a,b,c," by "," yields four segments whose
last is empty and flagged last, and splitting "a,b,c" yields exactly
three, with no empty trailing segment. -/
theorem split_trailing_separator {T : Type} :
    (∀ (sep : Parser T) (fuel : Nat) (flag : Bool) (ctx ctx' : ParseContext T)
        (rest : List (Token T)) (segs : List (Consume T)),
      splitLoop sep fuel ctx rest flag = some (ctx', segs) →
      (flag = true ∨ rest ≠ []) →
      ∃ init s, segs = init ++ [s] ∧ s.last = true ∧ ∀ x ∈ init, x.last = false) ∧
    Split 10 ctx0 commaP toksTrailing =
      some (ctx0,
        [{ skipped := [strTok 0 "a"], matched := [strTok 1 ","], consume := 1 },
         { skipped := [strTok 2 "b"], matched := [strTok 3 ","], consume := 1 },
         { skipped := [strTok 4 "c"], matched := [strTok 5 ","], consume := 1 },
         { last := true }]) ∧
    Split 10 ctx0 commaP toksNoTrailing =
      some (ctx0,
        [{ skipped := [strTok 0 "a"], matched := [strTok 1 ","], consume := 1 },
         { skipped := [strTok 2 "b"], matched := [strTok 3 ","], consume := 1 },
         { skipped := [strTok 4 "c"], last := true }]) := by
  refine ⟨?_, rfl, rfl⟩
  intro sep fuel
  induction fuel with
  | zero =>
    intro flag ctx ctx' rest segs h _
    rw [splitLoop] at h
    cases h
  | succ n ih =>
    intro flag ctx ctx' rest segs h hflag
    rw [splitLoop] at h
    by_cases hrest : rest.length = 0
    · rw [if_pos hrest] at h
      have hrestnil : rest = [] := List.length_eq_zero.mp hrest
      have hflag' : flag = true := by
        rcases hflag with hf | hf
        · exact hf
        · exact absurd hrestnil hf
      subst hflag'
      simp only [if_true, Option.some.injEq, Prod.mk.injEq] at h
      obtain ⟨-, hsegs⟩ := h
      exact ⟨[], { last := true }, hsegs.symm, rfl, fun x hx => absurd hx (List.not_mem_nil x)⟩
    · rw [if_neg hrest] at h
      cases hfind : Find ctx sep rest with
      | none => rw [hfind] at h; cases h
      | some pr =>
        obtain ⟨ctx1, fr⟩ := pr
        rw [hfind] at h
        cases fr with
        | notFound =>
          simp only [Option.some.injEq, Prod.mk.injEq] at h
          obtain ⟨-, hsegs⟩ := h
          exact ⟨[], { skipped := rest, last := true }, hsegs.symm, rfl,
            fun x hx => absurd hx (List.not_mem_nil x)⟩
        | found b m c after =>
          dsimp only at h
          cases hrec : splitLoop sep n ctx1 after true with
          | none => rw [hrec] at h; cases h
          | some pr2 =>
            obtain ⟨ctx2, segs2⟩ := pr2
            rw [hrec] at h
            simp only [Option.some.injEq, Prod.mk.injEq] at h
            obtain ⟨-, hsegs⟩ := h
            obtain ⟨init2, s, hs2, hslast, hinit2⟩ := ih true ctx1 ctx2 after segs2 hrec (Or.inl rfl)
            refine ⟨{ skipped := b, matched := m, consume := c } :: init2, s, ?_, hslast, ?_⟩
            · rw [← hsegs, hs2]
              rfl
            · intro x hx
              rcases List.mem_cons.mp hx with hx | hx
              · subst hx; rfl
              · exact hinit2 x hx

/-- Witness for C8: the general last-flag law applied to the concrete
"a,b,c," split. -/
theorem split_trailing_separator_witness :
    ∃ init s,
      [({ skipped := [strTok 0 "a"], matched := [strTok 1 ","], consume := 1 } : Consume String),
       { skipped := [strTok 2 "b"], matched := [strTok 3 ","], consume := 1 },
       { skipped := [strTok 4 "c"], matched := [strTok 5 ","], consume := 1 },
       { last := true }] = init ++ [s] ∧ s.last = true ∧ ∀ x ∈ init, x.last = false := by
  exact (split_trailing_separator (T := String)).1 commaP 10 false ctx0 ctx0 toksTrailing _
    (split_trailing_separator (T := String)).2.1 (Or.inr (by decide))

end ParserCombinator
